import Mathlib

/-!
Verification of the ABI-driven calldata encoder, argument validator and
response decoder of `src/contract.ts` (an early starknet.js contract layer).

The JavaScript source is shallowly embedded:
* `Args` values (`string | string[] | { type: 'struct'; ... }`) become the
  inductive `Value`; object entries are ordered association lists, matching
  JS insertion order.
* Fallible code (thrown exceptions from `toBN` / `assert`) becomes `Except`.
* The decoder's shared `Iterator<string>` becomes an explicit `Cursor`
  (the underlying array plus a position); `next()` past the end yields
  `undefined`, modelled as `none`.
* The decoder's unbounded recursion is given an explicit fuel parameter;
  every theorem quantifies over (or instantiates) sufficient fuel.
-/

namespace StarknetContract

deriving instance DecidableEq for Except

/-! ## Felt numeral parsing

`toBN` lives in `utils/number`, which is not part of the sources under
verification; it is modelled from the spec (§4.2 Felt Value Normalizer).
-/

def isDecDigitChar (c : Char) : Bool :=
  decide (48 ≤ c.toNat) && decide (c.toNat ≤ 57)

def isHexDigitChar (c : Char) : Bool :=
  isDecDigitChar c ||
    (decide (97 ≤ c.toNat) && decide (c.toNat ≤ 102)) ||
    (decide (65 ≤ c.toNat) && decide (c.toNat ≤ 70))

def hexDigitVal (c : Char) : Nat :=
  if isDecDigitChar c then c.toNat - 48
  else if decide (97 ≤ c.toNat) && decide (c.toNat ≤ 102) then c.toNat - 97 + 10
  else if decide (65 ≤ c.toNat) && decide (c.toNat ≤ 70) then c.toNat - 65 + 10
  else 0

def decDigitVal (c : Char) : Nat := c.toNat - 48

/-- Modelled from the spec: `toBN` (the Felt Value Normalizer of §4.2, in
`utils/number`, not under the verified sources) accepts decimal numerals and
`0x`-prefixed hexadecimal numerals, producing the canonical numeric value, and
fails with a parse error on any other input (non-numeral strings, the missing
value `undefined`, empty digit runs). -/
def toBN (s : String) : Option Nat :=
  match s.toList with
  | '0' :: 'x' :: ds =>
    if !ds.isEmpty && ds.all isHexDigitChar then
      some (ds.foldl (fun n c => 16 * n + hexDigitVal c) 0)
    else none
  | ds =>
    if !ds.isEmpty && ds.all isDecDigitChar then
      some (ds.foldl (fun n c => 10 * n + decDigitVal c) 0)
    else none

/-- `isFelt` from the source: the non-throwing probe around `parseFelt`,
which itself just wraps `toBN`. -/
def isFelt (s : String) : Bool := (toBN s).isSome

/-- `toBN(x).toString()`: renormalization of an accepted felt numeral to its
canonical decimal string. -/
def normFelt (s : String) : Except String String :=
  match toBN s with
  | some n => .ok (toString n)
  | none => .error "Couldnt parse felt"

/-! ## Args values and the calldata encoder -/

/-- One value of the `Args` mapping:
`string | string[] | { type: 'struct'; [k: string]: BigNumberish }`.
Struct objects are ordered entry lists (JS insertion order); the `type` tag,
when present, is one of the entries. -/
inductive Value where
  | felt : String → Value
  | arr : List String → Value
  | struct : List (String × String) → Value
deriving DecidableEq

/-- `'type' in value` for a struct-shaped object. -/
def hasTypeKey (entries : List (String × String)) : Bool :=
  entries.any (fun p => p.1 == "type")

/-- JS object property read: with duplicate keys the last write wins. -/
def lookupLastKey {α : Type} (l : List (String × α)) (k : String) : Option α :=
  (l.reverse.find? (fun p => p.1 == k)).map (fun p => p.2)

/-- `normFelt` mapped over a list, first failure wins (JS `map` evaluation
order with a thrown exception). -/
def mapNormFelt : List String → Except String (List String)
  | [] => .ok []
  | x :: rest =>
    match normFelt x, mapNormFelt rest with
    | .ok e, .ok es => .ok (e :: es)
    | .error msg, _ => .error msg
    | .ok _, .error msg => .error msg

/-- One flatMap step of `compileCalldata`:
array values contribute their length (as a decimal felt) followed by each
normalized element; struct-tagged objects contribute the normalized value of
every entry except the `type` tag, in entry order; scalars contribute one
normalized element.  A non-array object without a `type` entry falls through
to `toBN(value)`, a parse failure. -/
def encodeValue : Value → Except String (List String)
  | .arr xs =>
    match mapNormFelt xs with
    | .ok es => .ok (toString xs.length :: es)
    | .error e => .error e
  | .struct entries =>
    if hasTypeKey entries then
      mapNormFelt ((entries.filter (fun p => !(p.1 == "type"))).map (fun p => p.2))
    else .error "Couldnt parse felt"
  | .felt s =>
    match normFelt s with
    | .ok e => .ok [e]
    | .error e => .error e

/-- `compileCalldata`: `Object.values(args).flatMap(...)`, evaluated left to
right, first thrown parse error wins. -/
def compileCalldata : List (String × Value) → Except String (List String)
  | [] => .ok []
  | (_, v) :: rest =>
    match encodeValue v, compileCalldata rest with
    | .ok xs, .ok ys => .ok (xs ++ ys)
    | .error e, _ => .error e
    | .ok _, .error e => .error e

/-! ## ABI model and the struct registry -/

/-- A named, typed input/output/member declaration. -/
structure AbiEntry where
  name : String
  type : String
deriving DecidableEq

structure FunctionAbi where
  type : String
  name : String
  inputs : List AbiEntry
  outputs : List AbiEntry
  stateMutability : Option String
deriving DecidableEq

structure StructAbi where
  type : String
  name : String
  members : List AbiEntry
deriving DecidableEq

inductive Abi where
  | fn : FunctionAbi → Abi
  | st : StructAbi → Abi
deriving DecidableEq

def Abi.type : Abi → String
  | .fn f => f.type
  | .st s => s.type

def Abi.name : Abi → String
  | .fn f => f.name
  | .st s => s.name

/-- `.members` access; only `StructAbi` declares it (reading it off a
function entry would be `undefined` in JS — unreachable in the verified
paths, modelled as `[]`). -/
def Abi.members : Abi → List AbiEntry
  | .fn _ => []
  | .st s => s.members

def Abi.inputs : Abi → List AbiEntry
  | .fn f => f.inputs
  | .st _ => []

def Abi.stateMutability : Abi → Option String
  | .fn f => f.stateMutability
  | .st _ => none

/-- The constructor's struct registry:
`abi.filter(e => e.type === 'struct').reduce((acc, e) => ({...acc, [e.name]: e}), {})`.
Kept as the ordered entry list; property reads take the last write
(`lookupLastKey`). -/
def buildStructs (abi : List Abi) : List (String × Abi) :=
  (abi.filter (fun e => e.type == "struct")).map (fun e => (e.name, e))

/-! ## Argument validation -/

inductive CallType where
  | INVOKE : CallType
  | CALL : CallType
deriving DecidableEq

/-- Validation failures: the "method not found in abi" assertion, or one of
the per-argument assertion messages. -/
inductive VErr where
  | methodNotFound : CallType → VErr
  | argError : String → VErr
deriving DecidableEq

def isView (e : Abi) : Bool := e.stateMutability == some "view"

def mutabilityMatches (t : CallType) (e : Abi) : Bool :=
  match t with
  | .INVOKE => !(isView e)
  | .CALL => isView e

/-- The names a method may be resolved against for the given call kind:
function-kind entries whose mutability class matches. -/
def invokeableFunctionNames (abi : List Abi) (t : CallType) : List String :=
  (abi.filter (fun e => e.type == "function" && mutabilityMatches t e)).map Abi.name

/-- The per-element `felt*` check: every element must be a felt numeral
(the `typeof felt === 'string'` assertion always holds in this embedding,
where array elements are strings by construction). -/
def checkArr (inputName : String) : List String → Nat → Except VErr Unit
  | [], _ => .ok ()
  | x :: rest, i =>
    if isFelt x then checkArr inputName rest (i + 1)
    else .error (.argError ("arg " ++ inputName ++ "[" ++ toString i ++
      "] should be decimal or hexadecimal as part of a felt* (string[])"))

/-- The per-input check of `validateMethodAndArgs`, run only when the caller
supplied a value for the input. -/
def checkArg (input : AbiEntry) (arg : Value) : Except VErr Unit :=
  if input.type == "felt" then
    match arg with
    | .felt s =>
      if isFelt s then .ok ()
      else .error (.argError ("arg " ++ input.name ++ " should be decimal or hexadecimal"))
    | _ => .error (.argError ("arg " ++ input.name ++ " should be a felt (string)"))
  else
    match arg with
    | .struct entries =>
      if hasTypeKey entries then
        if lookupLastKey entries "type" == some "struct" then .ok ()
        else .error (.argError ("arg " ++ input.name ++ " should be a struct"))
      else .error (.argError ("arg " ++ input.name ++ " should be a felt* (string[])"))
    | .arr xs => checkArr input.name xs 0
    | .felt _ => .error (.argError ("arg " ++ input.name ++ " should be a felt* (string[])"))

/-- `methodAbi.inputs.forEach(...)`: inputs whose name is absent from `args`
are skipped entirely; the first failing assertion aborts. -/
def checkInputs : List AbiEntry → List (String × Value) → Except VErr Unit
  | [], _ => .ok ()
  | input :: rest, args =>
    match lookupLastKey args input.name with
    | none => checkInputs rest args
    | some arg =>
      match checkArg input arg with
      | .ok _ => checkInputs rest args
      | .error e => .error e

/-- `validateMethodAndArgs`: resolve the method among function entries of the
matching mutability class, then structurally check every supplied argument.
(The `none` branch of the inner `find?` is unreachable once the membership
assertion passed; in JS it would be an `undefined` property access.) -/
def validateMethodAndArgs (abi : List Abi) (t : CallType) (method : String)
    (args : List (String × Value)) : Except VErr Unit :=
  if (invokeableFunctionNames abi t).contains method then
    match abi.find? (fun e => e.name == method && e.type == "function") with
    | some m => checkInputs m.inputs args
    | none => .error (.argError "methodAbi is undefined")
  else .error (.methodNotFound t)

/-! ## Response decoding -/

/-- The forward-only response cursor: the flat response array plus the next
read position.  `next()` past the end keeps returning `undefined` (`none`)
without moving, exactly like an exhausted JS array iterator. -/
structure Cursor where
  data : List String
  pos : Nat
deriving DecidableEq

def Cursor.next (c : Cursor) : Option String × Cursor :=
  match c.data[c.pos]? with
  | some v => (some v, { c with pos := c.pos + 1 })
  | none => (none, c)

/-- Decoded response values: a felt is whatever `next().value` produced
(possibly `undefined`), a `felt*` is a list of such reads, and a struct or a
function's outputs decode to an ordered field mapping. -/
inductive RVal where
  | prim : Option String → RVal
  | list : List (Option String) → RVal
  | obj : List (String × RVal) → RVal

/-- The `while (arr.length < n) arr.push(responseIterator.next().value)` loop:
`n` reads in order, padding with `undefined` once the cursor is exhausted. -/
def takeN : Cursor → Nat → List (Option String) × Cursor
  | c, 0 => ([], c)
  | c, n + 1 =>
    let (v, c') := c.next
    let (vs, c'') := takeN c' n
    (v :: vs, c'')

/-- `toBN(currentAcc?.[...]).toNumber()` applied to the `_len` sibling read:
fails (spec-modelled `toBN` parse error) when the sibling is absent, was read
as `undefined`, or is not a felt numeral string. -/
def lenOf : Option RVal → Except String Nat
  | some (.prim (some s)) =>
    match toBN s with
    | some n => .ok n
    | none => .error "Couldnt parse felt"
  | _ => .error "Couldnt parse felt"

/-- The element being decoded: either a plain named/typed field, or the
method's own ABI object (which additionally carries `outputs`). -/
inductive Element where
  | entry : String → String → Element
  | fnEl : FunctionAbi → Element
deriving DecidableEq

def Element.name : Element → String
  | .entry n _ => n
  | .fnEl f => f.name

def Element.type : Element → String
  | .entry _ t => t
  | .fnEl f => f.type

/-- `'outputs' in element`. -/
def Element.outputsProp : Element → Option (List AbiEntry)
  | .entry _ _ => none
  | .fnEl f => some f.outputs

/-- `{...acc, [name]: v}`: overwrite in place when the key exists, else append
(JS object spread key ordering). -/
def accInsert (acc : List (String × RVal)) (k : String) (v : RVal) : List (String × RVal) :=
  if acc.any (fun p => p.1 == k) then
    acc.map (fun p => if p.1 == k then (k, v) else p)
  else acc ++ [(k, v)]

/-- The `entries.reduce(...)` walk of `parseResponseField`: decode each member
in order against the accumulator built so far, threading the shared cursor. -/
def runFields (pf : Element → Cursor → List (String × RVal) → Except String (RVal × Cursor)) :
    List AbiEntry → Cursor → List (String × RVal) →
    Except String (List (String × RVal) × Cursor)
  | [], c, acc => .ok (acc, c)
  | m :: rest, c, acc =>
    match pf (.entry m.name m.type) c acc with
    | .error e => .error e
    | .ok (v, c') => runFields pf rest c' (accInsert acc m.name v)

/-- `parseResponseField`: `felt` consumes one cursor element; `felt*` reads
the `<name>_len` sibling from the current accumulator and loops `n` reads;
otherwise the type is resolved against the struct registry (falling back to
the element's own `outputs`, else to no members) and decoded recursively.
The fuel argument bounds the recursion depth of the embedding; the JS
original recurses unboundedly. -/
def parseResponseField (structs : List (String × Abi)) :
    Nat → Element → Cursor → List (String × RVal) → Except String (RVal × Cursor)
  | 0, _, _, _ => .error "recursion limit exhausted"
  | fuel + 1, el, c, acc =>
    if el.type == "felt" then
      let (v, c') := c.next
      .ok (.prim v, c')
    else if el.type == "felt*" then
      match lenOf (lookupLastKey acc (el.name ++ "_len")) with
      | .error e => .error e
      | .ok n =>
        let (vs, c') := takeN c n
        .ok (.list vs, c')
    else
      let entries : List AbiEntry :=
        match lookupLastKey structs el.type with
        | some s => s.members
        | none =>
          match el.outputsProp with
          | some outs => outs
          | none => []
      match runFields (fun e cu a => parseResponseField structs fuel e cu a) entries c [] with
      | .ok (fields, c') => .ok (.obj fields, c')
      | .error e => .error e

/-- `parseResponse`: resolve the method's entry by name alone, then decode its
outputs against a fresh cursor over the (already flat) response.  A failed
lookup would be an `undefined` property access in JS, modelled as an error. -/
def parseResponse (abi : List Abi) (fuel : Nat) (method : String)
    (response : List String) : Except String RVal :=
  match abi.find? (fun e => e.name == method) with
  | none => .error "cannot read properties of undefined"
  | some e =>
    let el : Element :=
      match e with
      | .fn f => .fnEl f
      | .st s => .entry s.name s.type
    (parseResponseField (buildStructs abi) fuel el { data := response, pos := 0 } []).map
      (fun p => p.1)

/-- The shape in which a well-typed `Args` mapping would come back from a
decode that inverted the encoding: scalars as single wire reads, arrays as
their element reads, struct objects field by field. -/
def Value.toRVal : Value → RVal
  | .felt s => .prim (some s)
  | .arr xs => .list (xs.map some)
  | .struct entries => .obj (entries.map (fun p => (p.1, RVal.prim (some p.2))))

def argsToRVal (args : List (String × Value)) : RVal :=
  .obj (args.map (fun p => (p.1, p.2.toRVal)))

/-! ## Encoder lemmas -/

theorem compileCalldata_cons (k : String) (v : Value) (rest : List (String × Value)) :
    compileCalldata ((k, v) :: rest) =
      match encodeValue v, compileCalldata rest with
      | .ok xs, .ok ys => .ok (xs ++ ys)
      | .error e, _ => .error e
      | .ok _, .error e => .error e := rfl

theorem compileCalldata_append (xs ys : List (String × Value)) :
    compileCalldata (xs ++ ys) =
      match compileCalldata xs, compileCalldata ys with
      | .ok a, .ok b => .ok (a ++ b)
      | .error e, _ => .error e
      | .ok _, .error e => .error e := by
  induction xs with
  | nil =>
    cases h : compileCalldata ys <;> simp [compileCalldata, h]
  | cons p rest ih =>
    obtain ⟨k, v⟩ := p
    rw [List.cons_append, compileCalldata_cons, compileCalldata_cons, ih]
    cases encodeValue v <;> cases compileCalldata rest <;> cases compileCalldata ys <;> simp

theorem mapNormFelt_ok_of_isFelt (l : List String) (h : ∀ s ∈ l, isFelt s = true) :
    ∃ es, mapNormFelt l = .ok es := by
  induction l with
  | nil => exact ⟨[], rfl⟩
  | cons x rest ih =>
    have hx : isFelt x = true := h x (by simp)
    obtain ⟨n, hn⟩ : ∃ n, toBN x = some n := by
      unfold isFelt at hx
      cases hb : toBN x with
      | none => rw [hb] at hx; simp at hx
      | some n => exact ⟨n, rfl⟩
    obtain ⟨es, hes⟩ := ih (fun s hs => h s (by simp [hs]))
    exact ⟨toString n :: es, by simp [mapNormFelt, normFelt, hn, hes]⟩

/-- Claim C2: in `compileCalldata`, a `felt*` sequence value contributes its
length (as a decimal felt) first and then each normalized element in order,
wherever it sits among the arguments; in particular `{ data: [] }` encodes to
`["0"]` exactly and `{ data: ["1","2","3"] }` to `["3","1","2","3"]`. -/
theorem c2_array_length_first :
    (∀ (pre post : List (String × Value)) (k : String) (xs a es b : List String),
        compileCalldata pre = .ok a →
        mapNormFelt xs = .ok es →
        compileCalldata post = .ok b →
        compileCalldata (pre ++ (k, Value.arr xs) :: post) =
          .ok (a ++ (toString xs.length :: es) ++ b)) ∧
    compileCalldata [("data", Value.arr [])] = .ok ["0"] ∧
    compileCalldata [("data", Value.arr ["1", "2", "3"])] = .ok ["3", "1", "2", "3"] := by
  refine ⟨?_, rfl, rfl⟩
  intro pre post k xs a es b hpre hxs hpost
  have henc : encodeValue (Value.arr xs) = .ok (toString xs.length :: es) := by
    simp [encodeValue, hxs]
  rw [compileCalldata_append, hpre, compileCalldata_cons, henc, hpost]
  simp

/-- Witness for C2: a mixed argument mapping with a scalar before and after
the array; the array's length lands immediately before its elements. -/
theorem c2_array_length_first_witness :
    compileCalldata [("s", Value.felt "7"), ("data", Value.arr ["0x1", "2"]), ("t", Value.felt "9")] =
      .ok (["7"] ++ ("2" :: ["1", "2"]) ++ ["9"]) := by
  have h := c2_array_length_first.1 [("s", Value.felt "7")] [("t", Value.felt "9")]
    "data" ["0x1", "2"] ["7"] ["1", "2"] ["9"] rfl rfl rfl
  simpa using h

/-- Claim C5: a struct-tagged value contributes the normalized value of every
entry except the `type` tag, in entry order; the tag never reaches the
calldata (its entry is filtered out before normalization). -/
theorem c5_struct_tag_filtered :
    ∀ (pre post : List (String × Value)) (k : String)
      (entries : List (String × String)) (a es b : List String),
      hasTypeKey entries = true →
      compileCalldata pre = .ok a →
      mapNormFelt ((entries.filter (fun p => !(p.1 == "type"))).map (fun p => p.2)) = .ok es →
      compileCalldata post = .ok b →
      compileCalldata (pre ++ (k, Value.struct entries) :: post) = .ok (a ++ es ++ b) := by
  intro pre post k entries a es b htag hpre hes hpost
  have henc : encodeValue (Value.struct entries) = .ok es := by
    simp [encodeValue, htag, hes]
  rw [compileCalldata_append, hpre, compileCalldata_cons, henc, hpost]
  simp

/-- Witness for C5: a two-member struct with the tag in front encodes to the
two normalized member values only. -/
theorem c5_struct_tag_filtered_witness :
    compileCalldata [("p", Value.struct [("type", "struct"), ("x", "1"), ("y", "0x2")])] =
      .ok ([] ++ ["1", "2"] ++ []) := by
  have h := c5_struct_tag_filtered [] [] "p" [("type", "struct"), ("x", "1"), ("y", "0x2")]
    [] ["1", "2"] [] rfl rfl rfl rfl
  simpa using h

/-- Claim C9: `compileCalldata` never consults the ABI, the struct registry or
the argument names — two argument mappings with the same value sequence encode
identically — and a struct value is encoded from exactly the members it
carries: any member list whose non-tag values are felt numerals encodes
without error, regardless of what any ABI declares. -/
theorem c9_names_irrelevant :
    (∀ (a1 a2 : List (String × Value)),
        a1.map Prod.snd = a2.map Prod.snd → compileCalldata a1 = compileCalldata a2) ∧
    (∀ (k : String) (entries : List (String × String)),
        hasTypeKey entries = true →
        (∀ p ∈ entries, p.1 = "type" ∨ isFelt p.2 = true) →
        ∃ cd, compileCalldata [(k, Value.struct entries)] = .ok cd) := by
  constructor
  · intro a1
    induction a1 with
    | nil =>
      intro a2 h
      cases a2 with
      | nil => rfl
      | cons q r => simp at h
    | cons p rest ih =>
      intro a2 h
      cases a2 with
      | nil => simp at h
      | cons q r =>
        obtain ⟨k, v⟩ := p
        obtain ⟨k', v'⟩ := q
        simp only [List.map_cons, List.cons.injEq] at h
        obtain ⟨rfl, hrest⟩ := h
        rw [compileCalldata_cons, compileCalldata_cons, ih r hrest]
  · intro k entries htag hvals
    have hall : ∀ s ∈ (entries.filter (fun p => !(p.1 == "type"))).map (fun p => p.2),
        isFelt s = true := by
      intro s hs
      simp only [List.mem_map, List.mem_filter] at hs
      obtain ⟨p, ⟨hp, hpt⟩, rfl⟩ := hs
      rcases hvals p hp with h | h
      · rw [h] at hpt; simp at hpt
      · exact h
    obtain ⟨es, hes⟩ := mapNormFelt_ok_of_isFelt _ hall
    refine ⟨es, ?_⟩
    rw [compileCalldata_cons]
    simp [encodeValue, htag, hes, compileCalldata]

/-- Witness for C9: renaming the argument and its struct members (dropping
one member, adding another) while keeping the same value sequence leaves the
calldata unchanged, and a struct with arbitrary extra members encodes without
error. -/
theorem c9_names_irrelevant_witness :
    compileCalldata [("a", Value.felt "1"), ("b", Value.arr ["2"])] =
      compileCalldata [("x", Value.felt "1"), ("y", Value.arr ["2"])] ∧
    ∃ cd, compileCalldata
        [("k", Value.struct [("type", "struct"), ("extra1", "1"), ("extra2", "0x2")])] =
      .ok cd := by
  constructor
  · exact c9_names_irrelevant.1 _ _ (by rfl)
  · exact c9_names_irrelevant.2 "k" [("type", "struct"), ("extra1", "1"), ("extra2", "0x2")]
      (by rfl) (by decide)

/-! ## Validator lemmas -/

theorem mutabilityMatches_iff (t : CallType) (e : Abi) :
    mutabilityMatches t e = true ↔ isView e = (t == CallType.CALL) := by
  cases t <;> cases h : isView e <;> simp [mutabilityMatches, h]

theorem contains_invokeable_iff (abi : List Abi) (t : CallType) (method : String) :
    (invokeableFunctionNames abi t).contains method = true ↔
      ∃ e ∈ abi, e.type = "function" ∧ e.name = method ∧ isView e = (t == CallType.CALL) := by
  unfold invokeableFunctionNames
  rw [List.contains_iff_exists_mem_beq]
  constructor
  · rintro ⟨nm, hmem, hbeq⟩
    simp only [List.mem_map, List.mem_filter] at hmem
    obtain ⟨e, ⟨he, hp⟩, rfl⟩ := hmem
    rw [Bool.and_eq_true, beq_iff_eq] at hp
    exact ⟨e, he, hp.1, (beq_iff_eq.mp hbeq).symm, (mutabilityMatches_iff t e).mp hp.2⟩
  · rintro ⟨e, he, h1, h2, h3⟩
    refine ⟨e.name, ?_, beq_iff_eq.mpr h2.symm⟩
    simp only [List.mem_map, List.mem_filter]
    refine ⟨e, ⟨he, ?_⟩, rfl⟩
    rw [Bool.and_eq_true, beq_iff_eq]
    exact ⟨h1, (mutabilityMatches_iff t e).mpr h3⟩

theorem checkArr_shape (nm : String) : ∀ (xs : List String) (i : Nat),
    checkArr nm xs i = .ok () ∨ ∃ m, checkArr nm xs i = .error (.argError m) := by
  intro xs
  induction xs with
  | nil => intro i; left; rfl
  | cons x rest ih =>
    intro i
    cases h : isFelt x
    · right; exact ⟨_, by simp [checkArr, h] <;> rfl⟩
    · simpa [checkArr, h] using ih (i + 1)

theorem checkArg_shape (input : AbiEntry) (arg : Value) :
    checkArg input arg = .ok () ∨ ∃ m, checkArg input arg = .error (.argError m) := by
  by_cases hty : input.type = "felt"
  · cases arg with
    | felt s =>
      cases h : isFelt s
      · right; exact ⟨_, by simp [checkArg, hty, h] <;> rfl⟩
      · left; simp [checkArg, hty, h]
    | arr xs => right; exact ⟨_, by simp [checkArg, hty] <;> rfl⟩
    | struct es => right; exact ⟨_, by simp [checkArg, hty] <;> rfl⟩
  · cases arg with
    | felt s => right; exact ⟨_, by simp [checkArg, hty] <;> rfl⟩
    | arr xs => simpa [checkArg, hty] using checkArr_shape input.name xs 0
    | struct es =>
      cases h1 : hasTypeKey es
      · right; exact ⟨_, by simp [checkArg, hty, h1] <;> rfl⟩
      · cases h2 : (lookupLastKey es "type" == some "struct")
        · right; exact ⟨_, by simp [checkArg, hty, h1, h2] <;> rfl⟩
        · left; simp [checkArg, hty, h1, h2]

theorem checkInputs_shape : ∀ (inputs : List AbiEntry) (args : List (String × Value)),
    checkInputs inputs args = .ok () ∨ ∃ m, checkInputs inputs args = .error (.argError m) := by
  intro inputs
  induction inputs with
  | nil => intro args; left; rfl
  | cons input rest ih =>
    intro args
    cases hl : lookupLastKey args input.name with
    | none => simpa [checkInputs, hl] using ih args
    | some arg =>
      rcases checkArg_shape input arg with hc | ⟨m, hc⟩
      · simpa [checkInputs, hl, hc] using ih args
      · right; exact ⟨m, by simp [checkInputs, hl, hc]⟩

/-- Claim C6: for every call kind and method name, validation fails with the
"method not found" error exactly when no ABI entry of kind `function` has
that name with the mutability class the call kind requires (view entries for
read-only calls, non-view entries for invocations); no other validation
outcome produces that error. -/
theorem c6_method_resolution (abi : List Abi) (t : CallType) (method : String)
    (args : List (String × Value)) :
    validateMethodAndArgs abi t method args = .error (.methodNotFound t) ↔
      ¬ ∃ e ∈ abi, e.type = "function" ∧ e.name = method ∧ isView e = (t == CallType.CALL) := by
  rw [← contains_invokeable_iff abi t method]
  cases h : (invokeableFunctionNames abi t).contains method
  · have hv : validateMethodAndArgs abi t method args = .error (.methodNotFound t) := by
      unfold validateMethodAndArgs
      rw [h]
      rfl
    simp [hv, h]
  · have hv : validateMethodAndArgs abi t method args =
        match abi.find? (fun e => e.name == method && e.type == "function") with
        | some m => checkInputs m.inputs args
        | none => .error (.argError "methodAbi is undefined") := by
      unfold validateMethodAndArgs
      rw [h]
      rfl
    rw [hv]
    cases hfind : abi.find? (fun e => e.name == method && e.type == "function") with
    | none => simp
    | some m =>
      rcases checkInputs_shape m.inputs args with hc | ⟨msg, hc⟩ <;> simp [hc]

theorem checkInputs_all_absent (inputs : List AbiEntry) (args : List (String × Value))
    (h : ∀ i ∈ inputs, lookupLastKey args i.name = none) :
    checkInputs inputs args = .ok () := by
  induction inputs with
  | nil => rfl
  | cons input rest ih =>
    have hi := h input (by simp)
    simp only [checkInputs, hi]
    exact ih (fun j hj => h j (by simp [hj]))

theorem validate_eq_checkInputs (abi : List Abi) (t : CallType) (method : String)
    (args : List (String × Value)) (m : Abi)
    (hres : abi.find? (fun e => e.name == method && e.type == "function") = some m)
    (hmem : (invokeableFunctionNames abi t).contains method = true) :
    validateMethodAndArgs abi t method args = checkInputs m.inputs args := by
  unfold validateMethodAndArgs
  rw [hmem, hres]
  rfl

theorem checkInputs_skip_absent (args : List (String × Value)) :
    ∀ (pre post : List AbiEntry) (i : AbiEntry),
      lookupLastKey args i.name = none →
      checkInputs (pre ++ i :: post) args = checkInputs (pre ++ post) args := by
  intro pre
  induction pre with
  | nil =>
    intro post i habs
    simp only [List.nil_append, checkInputs, habs]
  | cons p pre' ih =>
    intro post i habs
    simp only [List.cons_append, checkInputs]
    cases hl : lookupLastKey args p.name with
    | none => exact ih post i habs
    | some arg =>
      show (match checkArg p arg with
            | Except.ok _ => checkInputs (pre' ++ i :: post) args
            | Except.error e => (Except.error e : Except VErr Unit)) =
          (match checkArg p arg with
            | Except.ok _ => checkInputs (pre' ++ post) args
            | Except.error e => Except.error e)
      cases checkArg p arg with
      | ok u => exact ih post i habs
      | error e => rfl

/-- Claim C10: validation never checks a declared input whose name is absent
from the supplied arguments.  Per input: whatever the other arguments are,
validating the method equals running the per-input checks with the absent
input deleted from the declaration list — so an omitted input never causes a
failure on its own account, regardless of what its entry declares.  And when
every declared input is absent (including `args = {}` or only unrelated
keys), validation succeeds outright once the method resolves. -/
theorem c10_omitted_inputs_unchecked :
    (∀ (abi : List Abi) (t : CallType) (method : String)
        (args : List (String × Value)) (m : Abi) (pre post : List AbiEntry) (i : AbiEntry),
        abi.find? (fun e => e.name == method && e.type == "function") = some m →
        (invokeableFunctionNames abi t).contains method = true →
        m.inputs = pre ++ i :: post →
        lookupLastKey args i.name = none →
        validateMethodAndArgs abi t method args = checkInputs (pre ++ post) args) ∧
    (∀ (abi : List Abi) (t : CallType) (method : String)
        (args : List (String × Value)) (m : Abi),
        abi.find? (fun e => e.name == method && e.type == "function") = some m →
        (invokeableFunctionNames abi t).contains method = true →
        (∀ i ∈ m.inputs, lookupLastKey args i.name = none) →
        validateMethodAndArgs abi t method args = .ok ()) := by
  constructor
  · intro abi t method args m pre post i hres hmem hinp habs
    rw [validate_eq_checkInputs abi t method args m hres hmem, hinp]
    exact checkInputs_skip_absent args pre post i habs
  · intro abi t method args m hres hmem habs
    rw [validate_eq_checkInputs abi t method args m hres hmem]
    exact checkInputs_all_absent m.inputs args habs

/-- Witness for C10, mixed case first: `transfer(to: felt, amount: felt)`
validated with only `amount` supplied — omitting `to` reduces validation to
checking `amount` alone (which succeeds); and with both inputs omitted and
only an unrelated non-felt key supplied, validation succeeds outright. -/
theorem c10_omitted_inputs_unchecked_witness :
    validateMethodAndArgs
        [Abi.fn { type := "function", name := "transfer",
                  inputs := [{ name := "to", type := "felt" },
                             { name := "amount", type := "felt" }],
                  outputs := [], stateMutability := none }]
        CallType.INVOKE "transfer" [("amount", Value.felt "5")] =
      checkInputs [{ name := "amount", type := "felt" }] [("amount", Value.felt "5")] ∧
    validateMethodAndArgs
        [Abi.fn { type := "function", name := "transfer",
                  inputs := [{ name := "to", type := "felt" },
                             { name := "amount", type := "felt" }],
                  outputs := [], stateMutability := none }]
        CallType.INVOKE "transfer" [("unrelated", Value.felt "not-a-felt")] = .ok () := by
  constructor
  · exact c10_omitted_inputs_unchecked.1 _ CallType.INVOKE "transfer"
      [("amount", Value.felt "5")]
      (Abi.fn { type := "function", name := "transfer",
                inputs := [{ name := "to", type := "felt" },
                           { name := "amount", type := "felt" }],
                outputs := [], stateMutability := none })
      [] [{ name := "amount", type := "felt" }] { name := "to", type := "felt" }
      rfl rfl rfl rfl
  · exact c10_omitted_inputs_unchecked.2 _ CallType.INVOKE "transfer"
      [("unrelated", Value.felt "not-a-felt")]
      (Abi.fn { type := "function", name := "transfer",
                inputs := [{ name := "to", type := "felt" },
                           { name := "amount", type := "felt" }],
                outputs := [], stateMutability := none })
      rfl rfl (by decide)

/-! ## Struct registry lemmas -/

theorem lookupStructs_eq_find (l : List Abi) (n : String) :
    (((l.filter (fun e => e.type == "struct")).map (fun e => (e.name, e))).find?
        (fun p => p.1 == n)).map (fun p => p.2) =
      l.find? (fun e => e.type == "struct" && e.name == n) := by
  induction l with
  | nil => rfl
  | cons a rest ih =>
    cases hq : a.type == "struct" with
    | false =>
      have h1 : List.filter (fun e => e.type == "struct") (a :: rest) =
          List.filter (fun e => e.type == "struct") rest := by
        simp [List.filter_cons, hq]
      have h2 : List.find? (fun e => e.type == "struct" && e.name == n) (a :: rest) =
          List.find? (fun e => e.type == "struct" && e.name == n) rest := by
        simp [List.find?_cons, hq]
      rw [h1, h2, ih]
    | true =>
      have h1 : List.filter (fun e => e.type == "struct") (a :: rest) =
          a :: List.filter (fun e => e.type == "struct") rest := by
        simp [List.filter_cons, hq]
      rw [h1, List.map_cons]
      cases hn : a.name == n with
      | true =>
        have h2 : List.find? (fun p => p.1 == n)
            ((a.name, a) ::
              (List.filter (fun e => e.type == "struct") rest).map (fun e => (e.name, e))) =
            some (a.name, a) := by
          simp [List.find?_cons, hn]
        have h3 : List.find? (fun e => e.type == "struct" && e.name == n) (a :: rest) =
            some a := by
          simp [List.find?_cons, hq, hn]
        rw [h2, h3]
        rfl
      | false =>
        have h2 : List.find? (fun p => p.1 == n)
            ((a.name, a) ::
              (List.filter (fun e => e.type == "struct") rest).map (fun e => (e.name, e))) =
            List.find? (fun p => p.1 == n)
              ((List.filter (fun e => e.type == "struct") rest).map (fun e => (e.name, e))) := by
          simp [List.find?_cons, hn]
        have h3 : List.find? (fun e => e.type == "struct" && e.name == n) (a :: rest) =
            List.find? (fun e => e.type == "struct" && e.name == n) rest := by
          simp [List.find?_cons, hq, hn]
        rw [h2, h3, ih]

/-- Claim C8: the struct registry built by the constructor resolves a struct
name to the last struct entry of that name in the ABI list — a silent
last-write-wins overwrite with no rejection (registry construction is total);
illustrated on an ABI carrying two structs both named "S". -/
theorem c8_registry_last_write_wins :
    (∀ (abi : List Abi) (n : String),
        lookupLastKey (buildStructs abi) n =
          abi.reverse.find? (fun e => e.type == "struct" && e.name == n)) ∧
    lookupLastKey
        (buildStructs
          [Abi.st { type := "struct", name := "S",
                    members := [{ name := "x", type := "felt" }] },
           Abi.st { type := "struct", name := "S",
                    members := [{ name := "y", type := "felt" }] }]) "S" =
      some (Abi.st { type := "struct", name := "S",
                     members := [{ name := "y", type := "felt" }] }) := by
  refine ⟨?_, rfl⟩
  intro abi n
  unfold lookupLastKey buildStructs
  rw [← List.map_reverse, ← List.filter_reverse]
  exact lookupStructs_eq_find abi.reverse n

/-! ## Decoder lemmas -/

theorem takeN_spec : ∀ (n : Nat) (data : List String) (pos : Nat), pos ≤ data.length →
    takeN { data := data, pos := pos } n =
      (((data.drop pos).take n).map some ++
         List.replicate (n - (data.length - pos)) none,
       { data := data, pos := min (pos + n) data.length }) := by
  intro n
  induction n with
  | zero =>
    intro data pos hpos
    simp [takeN, Nat.min_eq_left hpos]
  | succ n ih =>
    intro data pos hpos
    by_cases hlt : pos < data.length
    · have hstep : takeN { data := data, pos := pos } (n + 1) =
          (some data[pos] :: (takeN { data := data, pos := pos + 1 } n).1,
           (takeN { data := data, pos := pos + 1 } n).2) := by
        simp [takeN, Cursor.next, List.getElem?_eq_getElem hlt]
      rw [hstep, ih data (pos + 1) hlt]
      rw [List.drop_eq_getElem_cons hlt, List.take_succ_cons, List.map_cons]
      rw [show (n + 1) - (data.length - pos) = n - (data.length - (pos + 1)) by omega]
      rw [show pos + 1 + n = pos + (n + 1) by omega]
      simp
    · have hge : data.length ≤ pos := by omega
      have hstep : takeN { data := data, pos := pos } (n + 1) =
          (none :: (takeN { data := data, pos := pos } n).1,
           (takeN { data := data, pos := pos } n).2) := by
        simp [takeN, Cursor.next, List.getElem?_eq_none hge]
      rw [hstep, ih data pos hpos]
      rw [List.drop_eq_nil_of_le hge]
      rw [show data.length - pos = 0 by omega]
      rw [Nat.min_eq_right (by omega), Nat.min_eq_right (by omega)]
      simp [List.replicate_succ]

/-- Claim C3: decoding a `felt*` field reads the `<fieldName>_len` sibling
from the accumulator of the current recursion level, interprets it as a count
`n`, and (whenever the cursor still holds `n` elements) returns exactly the
next `n` cursor elements in order, leaving the cursor advanced by exactly
`n`. -/
theorem c3_feltstar_exact_consumption (structs : List (String × Abi)) (fuel : Nat)
    (name : String) (acc : List (String × RVal)) (data : List String) (pos : Nat)
    (s : String) (n : Nat)
    (hsib : lookupLastKey acc (name ++ "_len") = some (.prim (some s)))
    (hn : toBN s = some n)
    (havail : pos + n ≤ data.length) :
    parseResponseField structs (fuel + 1) (.entry name "felt*")
        { data := data, pos := pos } acc =
      .ok (.list (((data.drop pos).take n).map some),
           { data := data, pos := pos + n }) := by
  have hlen : lenOf (lookupLastKey acc (name ++ "_len")) = .ok n := by
    rw [hsib]; simp [lenOf, hn]
  have ht := takeN_spec n data pos (by omega)
  rw [show n - (data.length - pos) = 0 by omega, Nat.min_eq_left havail] at ht
  rw [List.replicate_zero, List.append_nil] at ht
  have hfield : parseResponseField structs (fuel + 1) (.entry name "felt*")
      { data := data, pos := pos } acc =
      (match takeN { data := data, pos := pos } n with
       | (vs, c') => .ok (.list vs, c')) := by
    show (match lenOf (lookupLastKey acc (name ++ "_len")) with
          | .error e => (.error e : Except String (RVal × Cursor))
          | .ok k =>
            match takeN { data := data, pos := pos } k with
            | (vs, c') => .ok (.list vs, c')) = _
    rw [hlen]
  rw [hfield, ht]

/-- Witness for C3: with `data_len` already decoded as `"2"`, the array field
takes exactly the next two elements and leaves the cursor at position 2. -/
theorem c3_feltstar_exact_consumption_witness :
    parseResponseField [] 1 (.entry "data" "felt*") { data := ["9", "8", "7"], pos := 0 }
        [("data_len", RVal.prim (some "2"))] =
      .ok (.list [some "9", some "8"], { data := ["9", "8", "7"], pos := 2 }) := by
  have h := c3_feltstar_exact_consumption [] 0 "data" [("data_len", RVal.prim (some "2"))]
    ["9", "8", "7"] 0 "2" 2 rfl rfl (by decide)
  simpa using h

/-- Claim C4 counterexample: a `felt*` field whose declared count (3) exceeds
the single remaining response element does NOT fail — the decoder returns
successfully with a 3-element sequence padded by two `undefined` reads. -/
theorem c4_exhaustion_cex :
    parseResponseField [] 1 (.entry "data" "felt*") { data := ["7"], pos := 0 }
        [("data_len", RVal.prim (some "3"))] =
      .ok (.list [some "7", none, none], { data := ["7"], pos := 1 }) := rfl

/-- Claim C4 as amended: when the declared count `n` exceeds the elements
remaining on the cursor, decoding the `felt*` field succeeds silently,
returning the remaining elements followed by `undefined` padding up to length
`n`, with the cursor parked at the end of the response. -/
theorem c4_exhaustion_pads_with_undefined (structs : List (String × Abi)) (fuel : Nat)
    (name : String) (acc : List (String × RVal)) (data : List String) (pos : Nat)
    (s : String) (n : Nat)
    (hsib : lookupLastKey acc (name ++ "_len") = some (.prim (some s)))
    (hn : toBN s = some n)
    (hpos : pos ≤ data.length)
    (hexh : data.length < pos + n) :
    parseResponseField structs (fuel + 1) (.entry name "felt*")
        { data := data, pos := pos } acc =
      .ok (.list ((data.drop pos).map some ++
             List.replicate (pos + n - data.length) none),
           { data := data, pos := data.length }) := by
  have hlen : lenOf (lookupLastKey acc (name ++ "_len")) = .ok n := by
    rw [hsib]; simp [lenOf, hn]
  have ht := takeN_spec n data pos hpos
  rw [show n - (data.length - pos) = pos + n - data.length by omega,
    Nat.min_eq_right (by omega)] at ht
  rw [List.take_of_length_le (by rw [List.length_drop]; omega)] at ht
  have hfield : parseResponseField structs (fuel + 1) (.entry name "felt*")
      { data := data, pos := pos } acc =
      (match takeN { data := data, pos := pos } n with
       | (vs, c') => .ok (.list vs, c')) := by
    show (match lenOf (lookupLastKey acc (name ++ "_len")) with
          | .error e => (.error e : Except String (RVal × Cursor))
          | .ok k =>
            match takeN { data := data, pos := pos } k with
            | (vs, c') => .ok (.list vs, c')) = _
    rw [hlen]
  rw [hfield, ht]

/-- Witness for the amended C4: four elements requested, two available — the
result is the two reads plus two `undefined`s, cursor at the end. -/
theorem c4_exhaustion_pads_with_undefined_witness :
    parseResponseField [] 1 (.entry "data" "felt*") { data := ["5", "6"], pos := 0 }
        [("data_len", RVal.prim (some "4"))] =
      .ok (.list [some "5", some "6", none, none], { data := ["5", "6"], pos := 2 }) := by
  have h := c4_exhaustion_pads_with_undefined [] 0 "data"
    [("data_len", RVal.prim (some "4"))] ["5", "6"] 0 "4" 4 rfl rfl (by decide) (by decide)
  simpa using h

/-- Claim C7: decoding a `felt*` field whose `<fieldName>_len` sibling is
absent from the accumulator (not declared earlier in the ABI) fails with the
felt parse error instead of defaulting the length to zero. -/
theorem c7_missing_len_sibling_fails (structs : List (String × Abi)) (fuel : Nat)
    (name : String) (c : Cursor) (acc : List (String × RVal))
    (hmiss : lookupLastKey acc (name ++ "_len") = none) :
    parseResponseField structs (fuel + 1) (.entry name "felt*") c acc =
      .error "Couldnt parse felt" := by
  show (match lenOf (lookupLastKey acc (name ++ "_len")) with
        | .error e => (.error e : Except String (RVal × Cursor))
        | .ok k =>
          match takeN c k with
          | (vs, c') => .ok (.list vs, c')) = _
  rw [hmiss]
  rfl

/-- Witness for C7: decoding `data : felt*` with an empty accumulator fails. -/
theorem c7_missing_len_sibling_fails_witness :
    parseResponseField [] 1 (.entry "data" "felt*") { data := ["1", "2"], pos := 0 } [] =
      .error "Couldnt parse felt" :=
  c7_missing_len_sibling_fails [] 0 "data" { data := ["1", "2"], pos := 0 } [] rfl

/-! ## Round-trip lemmas (claim C1) -/

theorem compileCalldata_canonical (names ss : List String)
    (hlen : ss.length = names.length)
    (hcanon : ∀ s ∈ ss, normFelt s = .ok s) :
    compileCalldata (names.zip (ss.map Value.felt)) = .ok ss := by
  induction names generalizing ss with
  | nil =>
    cases ss with
    | nil => rfl
    | cons s ss' => simp at hlen
  | cons nm names ih =>
    cases ss with
    | nil => simp at hlen
    | cons s ss' =>
      have h1 : normFelt s = .ok s := hcanon s (by simp)
      have h2 := ih ss' (by simpa using hlen) (fun x hx => hcanon x (by simp [hx]))
      simp only [List.map_cons, List.zip_cons_cons]
      rw [compileCalldata_cons,
        show encodeValue (Value.felt s) = .ok [s] by simp [encodeValue, h1], h2]
      rfl

theorem runFields_felt_decode (structs : List (String × Abi)) (fuel : Nat) :
    ∀ (inputs : List AbiEntry) (ss rest data : List String) (pos : Nat)
      (acc : List (String × RVal)),
      (∀ i ∈ inputs, i.type = "felt") →
      (inputs.map AbiEntry.name).Nodup →
      (∀ i ∈ inputs, acc.any (fun p => p.1 == i.name) = false) →
      ss.length = inputs.length →
      data.drop pos = ss ++ rest →
      runFields (fun e cu a => parseResponseField structs (fuel + 1) e cu a) inputs
          { data := data, pos := pos } acc =
        .ok (acc ++ (inputs.map AbiEntry.name).zip
               (ss.map (fun s => RVal.prim (some s))),
             { data := data, pos := pos + inputs.length }) := by
  intro inputs
  induction inputs with
  | nil =>
    intro ss rest data pos acc _ _ _ hlen _
    have hss : ss = [] := List.length_eq_zero.mp (by simpa using hlen)
    subst hss
    simp [runFields]
  | cons i is ih =>
    intro ss rest data pos acc htypes hnodup hdisj hlen hdrop
    cases ss with
    | nil => simp at hlen
    | cons s ss' =>
      have hi : i.type = "felt" := htypes i (by simp)
      have hpos : pos < data.length := by
        by_contra hge
        rw [List.drop_eq_nil_of_le (by omega)] at hdrop
        simp at hdrop
      have hget : data[pos]? = some s := by
        have h0 := List.getElem?_drop data pos 0
        rw [hdrop] at h0
        simpa using h0.symm
      have hdrop1 : data.drop (pos + 1) = ss' ++ rest := by
        have h1 : (data.drop pos).drop 1 = data.drop (pos + 1) := List.drop_drop ..
        rw [← h1, hdrop]
        rfl
      have hnext : Cursor.next { data := data, pos := pos } =
          (some s, { data := data, pos := pos + 1 }) := by
        simp [Cursor.next, hget]
      have hpf : parseResponseField structs (fuel + 1)
          (.entry i.name "felt") { data := data, pos := pos } acc =
          .ok (.prim (some s), { data := data, pos := pos + 1 }) := by
        show (match Cursor.next { data := data, pos := pos } with
              | (v, c') => (.ok (.prim v, c') : Except String (RVal × Cursor))) = _
        rw [hnext]
      have hstep : runFields (fun e cu a => parseResponseField structs (fuel + 1) e cu a)
          (i :: is) { data := data, pos := pos } acc =
          runFields (fun e cu a => parseResponseField structs (fuel + 1) e cu a)
            is { data := data, pos := pos + 1 }
            (accInsert acc i.name (.prim (some s))) := by
        simp only [runFields]
        rw [show Element.entry i.name i.type = Element.entry i.name "felt" by rw [hi], hpf]
      have hacc : accInsert acc i.name (.prim (some s)) =
          acc ++ [(i.name, RVal.prim (some s))] := by
        unfold accInsert
        rw [hdisj i (by simp)]
        rfl
      have hnodup' := hnodup
      rw [List.map_cons, List.nodup_cons] at hnodup'
      obtain ⟨hnotin, hnodupTail⟩ := hnodup'
      have hdisj' : ∀ j ∈ is, (acc ++ [(i.name, RVal.prim (some s))]).any
          (fun p => p.1 == j.name) = false := by
        intro j hj
        rw [List.any_append, hdisj j (by simp [hj])]
        simp only [List.any_cons, List.any_nil, Bool.or_false, Bool.false_or]
        rw [beq_eq_false_iff_ne]
        intro hEq
        exact hnotin (hEq ▸ List.mem_map_of_mem AbiEntry.name hj)
      rw [hstep, hacc,
        ih ss' rest data (pos + 1) (acc ++ [(i.name, RVal.prim (some s))])
          (fun j hj => htypes j (by simp [hj])) hnodupTail hdisj'
          (by simpa using hlen) hdrop1]
      simp only [List.map_cons, List.zip_cons_cons, List.length_cons]
      rw [show (acc ++ [(i.name, RVal.prim (some s))]) ++
            (is.map AbiEntry.name).zip (ss'.map (fun s => RVal.prim (some s))) =
          acc ++ (i.name, RVal.prim (some s)) ::
            (is.map AbiEntry.name).zip (ss'.map (fun s => RVal.prim (some s))) by simp]
      rw [show pos + 1 + is.length = pos + (is.length + 1) by omega]

theorem argsToRVal_zip_felt (names : List String) : ∀ (ss : List String),
    argsToRVal (names.zip (ss.map Value.felt)) =
      .obj (names.zip (ss.map (fun s => RVal.prim (some s)))) := by
  induction names with
  | nil => intro ss; cases ss <;> rfl
  | cons nm names ih =>
    intro ss
    cases ss with
    | nil => rfl
    | cons s ss' =>
      have ihl : (names.zip (ss'.map Value.felt)).map
          (fun p => (p.1, p.2.toRVal)) =
          names.zip (ss'.map (fun s => RVal.prim (some s))) := by
        have h := ih ss'
        unfold argsToRVal at h
        injection h
      unfold argsToRVal
      congr 1
      rw [show ((nm :: names).zip ((s :: ss').map Value.felt)).map
            (fun p => (p.1, p.2.toRVal)) =
          (nm, RVal.prim (some s)) ::
            (names.zip (ss'.map Value.felt)).map (fun p => (p.1, p.2.toRVal)) from rfl]
      rw [ihl]
      rfl

/-- Claim C1 counterexample: the round trip fails on a well-typed argument
mapping.  For `f(user: felt) -> (user: felt)` (outputs shaped exactly like
the inputs) and the validated argument `{ user: "0x10" }`, the encoder
renormalizes the hex numeral to decimal `"16"`, so decoding the echoed
calldata yields `{ user: "16" } ≠ { user: "0x10" }`. -/
theorem c1_roundtrip_cex :
    validateMethodAndArgs
        [Abi.fn { type := "function", name := "f",
                  inputs := [{ name := "user", type := "felt" }],
                  outputs := [{ name := "user", type := "felt" }],
                  stateMutability := some "view" }]
        CallType.CALL "f" [("user", Value.felt "0x10")] = .ok () ∧
    compileCalldata [("user", Value.felt "0x10")] = .ok ["16"] ∧
    parseResponse
        [Abi.fn { type := "function", name := "f",
                  inputs := [{ name := "user", type := "felt" }],
                  outputs := [{ name := "user", type := "felt" }],
                  stateMutability := some "view" }]
        2 "f" ["16"] = .ok (RVal.obj [("user", RVal.prim (some "16"))]) ∧
    RVal.obj [("user", RVal.prim (some "16"))] ≠
      argsToRVal [("user", Value.felt "0x10")] := by
  refine ⟨rfl, rfl, rfl, ?_⟩
  intro h
  simp [argsToRVal, Value.toRVal] at h

/-- Claim C1 as amended: the round trip
`parseResponse(f, compileCalldata(args)) = args` does hold in the scalar
fragment — a method resolved by name whose outputs are exactly its inputs,
all inputs of type `felt` with pairwise-distinct names not shadowed by the
struct registry, and arguments supplied in declaration order whose values are
canonical decimal numerals (hex values are renormalized to decimal and
`felt*` values double-emit their length, so those do not round-trip). -/
theorem c1_roundtrip_canonical_scalars (abi : List Abi) (f : FunctionAbi) (fname : String)
    (names ss : List String) (F : Nat)
    (hfind : abi.find? (fun e => e.name == fname) = some (.fn f))
    (hty1 : f.type ≠ "felt") (hty2 : f.type ≠ "felt*")
    (hreg : lookupLastKey (buildStructs abi) f.type = none)
    (hio : f.outputs = f.inputs)
    (htypes : ∀ i ∈ f.inputs, i.type = "felt")
    (hnames : f.inputs.map AbiEntry.name = names)
    (hnodup : names.Nodup)
    (hlen : ss.length = names.length)
    (hcanon : ∀ s ∈ ss, normFelt s = .ok s) :
    compileCalldata (names.zip (ss.map Value.felt)) = .ok ss ∧
    parseResponse abi (F + 2) fname ss =
      .ok (argsToRVal (names.zip (ss.map Value.felt))) := by
  refine ⟨compileCalldata_canonical names ss hlen hcanon, ?_⟩
  have hc1 : (f.type == "felt") = false := beq_eq_false_iff_ne.mpr hty1
  have hc2 : (f.type == "felt*") = false := beq_eq_false_iff_ne.mpr hty2
  unfold parseResponse
  rw [hfind]
  show Except.map (fun p => p.1)
    (parseResponseField (buildStructs abi) (F + 2) (.fnEl f) { data := ss, pos := 0 } []) = _
  rw [parseResponseField.eq_2 (buildStructs abi) (.fnEl f) { data := ss, pos := 0 } [] (F + 1)]
  simp only [Element.type, Element.name, Element.outputsProp, hc1, hc2, hreg, hio]
  show Except.map (fun p : RVal × Cursor => p.1)
      (match runFields
          (fun e cu a => parseResponseField (buildStructs abi) (F + 1) e cu a)
          f.inputs { data := ss, pos := 0 } [] with
       | Except.ok (fields, c') => Except.ok (RVal.obj fields, c')
       | Except.error e => (Except.error e : Except String (RVal × Cursor))) =
    Except.ok (argsToRVal (names.zip (ss.map Value.felt)))
  have hrun := runFields_felt_decode (buildStructs abi) F f.inputs ss [] ss 0 []
    htypes (hnames ▸ hnodup) (fun i _ => rfl)
    (by rw [hlen, ← hnames, List.length_map]) (by simp)
  rw [hrun, argsToRVal_zip_felt, hnames]
  rfl

/-- Witness for the amended C1: `bal(a: felt, b: felt) -> (a: felt, b: felt)`
with canonical decimal arguments `a = "10"`, `b = "0"` round-trips exactly. -/
theorem c1_roundtrip_canonical_scalars_witness :
    compileCalldata [("a", Value.felt "10"), ("b", Value.felt "0")] = .ok ["10", "0"] ∧
    parseResponse
        [Abi.fn { type := "function", name := "bal",
                  inputs := [{ name := "a", type := "felt" },
                             { name := "b", type := "felt" }],
                  outputs := [{ name := "a", type := "felt" },
                              { name := "b", type := "felt" }],
                  stateMutability := none }]
        2 "bal" ["10", "0"] =
      .ok (argsToRVal [("a", Value.felt "10"), ("b", Value.felt "0")]) := by
  have h := c1_roundtrip_canonical_scalars
    [Abi.fn { type := "function", name := "bal",
              inputs := [{ name := "a", type := "felt" },
                         { name := "b", type := "felt" }],
              outputs := [{ name := "a", type := "felt" },
                          { name := "b", type := "felt" }],
              stateMutability := none }]
    { type := "function", name := "bal",
      inputs := [{ name := "a", type := "felt" }, { name := "b", type := "felt" }],
      outputs := [{ name := "a", type := "felt" }, { name := "b", type := "felt" }],
      stateMutability := none }
    "bal" ["a", "b"] ["10", "0"] 0
    rfl (by decide) (by decide) rfl rfl (by decide) rfl (by decide) rfl (by decide)
  simpa using h

end StarknetContract
